import Mathlib

/-!
# Verification of the bagpipes catalogue-fitting coordination protocol

The repository's example notebook (`Example 6 - Fitting catalogues of data.ipynb`)
shows the usage of `pipes.fit_catalogue`, `pipes.catalogue.merge` and
`pipes.catalogue.clean`, together with the concrete `load_goodss` photometry
loader.  The implementation of the coordination protocol itself (object ledger,
claim coordinator, worker loop, batch merger, run maintenance) is not part of
the sources here, so it is modelled from the specification; `load_goodss` is
embedded directly from the notebook code.
-/

namespace Bagpipes

/-- Modelled from the spec: the per-object status of an `ObjectRecord`
(`status ∈ {Unclaimed, Claimed, Completed, Failed}`, with `claimOwner` and
`claimTimestamp` present iff Claimed and `result` present iff Completed).
The implementation of the object ledger is not under `src/`. -/
inductive Status where
  | unclaimed : Status
  | claimed (owner : Nat) (time : Nat) : Status
  | completed (result : Nat) : Status
  | failed : Status
deriving DecidableEq, Repr

/-- Modelled from the spec: the outcome of the external collaborator
`fit(objectID, configuration) -> Result | Failure`. -/
inductive FitOutcome where
  | success (result : Nat) : FitOutcome
  | failure : FitOutcome
deriving DecidableEq, Repr

/-- Modelled from the spec: the durable object ledger of one catalogue run —
a status record for every object ID of the run.  `ids` is the run's ID list
and `st` the status table. -/
structure Ledger where
  ids : List Nat
  st : Nat → Status

/-- Look up one object's record; IDs outside the run have no record. -/
def Ledger.get (led : Ledger) (id : Nat) : Option Status :=
  if id ∈ led.ids then some (led.st id) else none

/-- Overwrite one object's status (the single-record durable update primitive). -/
def setStatus (led : Ledger) (id : Nat) (s : Status) : Ledger :=
  { led with st := fun j => if j = id then s else led.st j }

/-- Modelled from the spec: `tryClaim(runName, id, workerToken) -> bool`
atomically transitions one record from Unclaimed to Claimed(workerToken, now)
and fails (returns false, mutating nothing) if the record is not currently
Unclaimed.  The implementation is not under `src/`. -/
def tryClaim (led : Ledger) (id tok now : Nat) : Bool × Ledger :=
  match led.get id with
  | some .unclaimed => (true, setStatus led id (.claimed tok now))
  | _ => (false, led)

/-- The status a fit outcome is recorded as. -/
def outcomeStatus : FitOutcome → Status
  | .success r => .completed r
  | .failure => .failed

/-- Modelled from the spec: `recordResult(runName, id, workerToken, result|failure)`
transitions Claimed(workerToken) to Completed or Failed and no-ops when the
caller's token does not match the current claim owner. -/
def recordResult (led : Ledger) (id tok : Nat) (out : FitOutcome) : Ledger :=
  match led.get id with
  | some (.claimed o _) =>
      if o = tok then setStatus led id (outcomeStatus out) else led
  | _ => led

/-- Reset of one record by run maintenance: Claimed goes back to Unclaimed
(claim owner and timestamp discarded), everything else is untouched. -/
def cleanStatus : Status → Status
  | .claimed _ _ => .unclaimed
  | s => s

/-- Modelled from the spec: `pipes.catalogue.clean` resets every Claimed record
to Unclaimed and never touches Completed or Failed records.  The implementation
is not under `src/`; the worker-termination signalling side of clean is outside
the ledger model. -/
def clean (led : Ledger) : Ledger :=
  { led with st := fun j => cleanStatus (led.st j) }

def Status.isCompleted : Status → Bool
  | .completed _ => true
  | _ => false

def Status.isFailed : Status → Bool
  | .failed => true
  | _ => false

def Status.isClaimed : Status → Bool
  | .claimed _ _ => true
  | _ => false

def Status.isUnclaimed : Status → Bool
  | .unclaimed => true
  | _ => false

/-- The counts returned by `reportStatus(runName)`. -/
structure StatusReport where
  total : Nat
  completed : Nat
  failed : Nat
  claimed : Nat
  unclaimed : Nat
deriving DecidableEq, Repr

/-- Modelled from the spec: `reportStatus(runName)` returns counts of
{total, completed, failed, claimed, unclaimed} — read-only. -/
def reportStatus (led : Ledger) : StatusReport :=
  { total := led.ids.length
    completed := led.ids.countP fun i => (led.st i).isCompleted
    failed := led.ids.countP fun i => (led.st i).isFailed
    claimed := led.ids.countP fun i => (led.st i).isClaimed
    unclaimed := led.ids.countP fun i => (led.st i).isUnclaimed }

/-- The rows the batch merger reads: one `(id, result)` row per Completed
record of the run. -/
def completedRows (led : Ledger) : List (Nat × Nat) :=
  led.ids.filterMap fun i =>
    match led.st i with
    | .completed r => some (i, r)
    | _ => none

/-- Modelled from the spec: `pipes.catalogue.merge` produces/updates the
summary artifact by reading all Completed records and writing one row per
completed object, preserving previously-written rows for objects not newly
completed.  The implementation is not under `src/`. -/
def merge (summary : List (Nat × Nat)) (led : Ledger) : List (Nat × Nat) :=
  summary.filter (fun row => !(completedRows led).any fun c => c.1 == row.1)
    ++ completedRows led

/-- Modelled from the spec: the claim coordinator's candidate list — the run's
Unclaimed records in a stable order, by ID ascending. -/
def candidates (led : Ledger) : List Nat :=
  List.insertionSort (· ≤ ·) (led.ids.filter fun i => (led.st i).isUnclaimed)

/-- Modelled from the spec: the coordinator's scan — for each candidate call
`tryClaim`; on failure (lost race) move to the next candidate; stop once `n`
claims are obtained or the candidates are exhausted. -/
def claimScan (tok now : Nat) : Ledger → List Nat → Nat → List Nat × Ledger
  | led, _, 0 => ([], led)
  | led, [], _ + 1 => ([], led)
  | led, c :: rest, n + 1 =>
      let p := tryClaim led c tok now
      if p.1 then
        let q := claimScan tok now p.2 rest n
        (c :: q.1, q.2)
      else
        claimScan tok now p.2 rest (n + 1)

/-- The coordinator's answer: some claims, or catalogue-exhausted. -/
inductive CoordResult where
  | claims (ids : List Nat) : CoordResult
  | exhausted : CoordResult
deriving DecidableEq, Repr

/-- Modelled from the spec: the claim coordinator turns "give me the next `n`
unclaimed objects" into successful claims; when no Unclaimed objects remain it
reports catalogue-exhausted immediately without blocking or polling. -/
def claimNext (led : Ledger) (tok now n : Nat) : CoordResult × Ledger :=
  let cands := candidates led
  if cands.isEmpty then (.exhausted, led)
  else
    let r := claimScan tok now led cands n
    (.claims r.1, r.2)

/-- Whether a record exists and is Unclaimed (the predicate the coordinator's
scan selects on). -/
def getUnclaimed (led : Ledger) (c : Nat) : Bool :=
  match led.get c with
  | some .unclaimed => true
  | _ => false

/-- Modelled from the spec: repeated `tryClaim` attempts on one object by a
sequence of racing workers, each attempt an atomic ledger operation, so any
interleaving of N concurrent attempts is some sequential order of them.
Returns each attempt's outcome. -/
def raceAll (id : Nat) : Ledger → List (Nat × Nat) → List Bool × Ledger
  | led, [] => ([], led)
  | led, (tok, now) :: rest =>
      let p := tryClaim led id tok now
      let q := raceAll id p.2 rest
      (p.1 :: q.1, q.2)

/-- The phase of one worker process in the worker loop. -/
inductive WPhase where
  | idle : WPhase
  | fitting (id : Nat) : WPhase
  | done : WPhase
deriving DecidableEq, Repr

/-- Modelled from the spec: one ephemeral worker process, identified by a
process-unique token, with its completion count (used for batch triggering). -/
structure Worker where
  tok : Nat
  phase : WPhase
  count : Nat
deriving DecidableEq, Repr

/-- Modelled from the spec: the shared state of one catalogue run plus the
local states of the worker processes.  `log` records every `recordResult`
event as `(objectID, workerToken)`; `mergeLog` records every automatic batch
merge as `(workerIndex, completionCount)`; `clock` supplies claim timestamps. -/
structure SysState where
  led : Ledger
  summary : List (Nat × Nat)
  log : List (Nat × Nat)
  mergeLog : List (Nat × Nat)
  workers : List Worker
  clock : Nat

/-- Modelled from the spec: an idle worker asks the coordinator for the next
claim; on catalogue-exhausted it terminates successfully, otherwise it starts
fitting the claimed object. -/
def applyClaim (s : SysState) (i : Nat) (w : Worker) : SysState :=
  match claimNext s.led w.tok s.clock 1 with
  | (.exhausted, _) =>
      { s with workers := s.workers.set i { w with phase := .done }
               clock := s.clock + 1 }
  | (.claims [c], led2) =>
      { s with led := led2
               workers := s.workers.set i { w with phase := .fitting c }
               clock := s.clock + 1 }
  | (.claims _, _) =>
      { s with workers := s.workers.set i { w with phase := .done }
               clock := s.clock + 1 }

/-- Modelled from the spec: a fitting worker finishes its fit, records the
result (Completed or Failed) and, when its completion count crosses a
batch-size boundary, triggers the batch merger; it then returns to the idle
phase and continues the loop. -/
def applyRecord (fit : Nat → FitOutcome) (batch : Nat) (s : SysState)
    (i : Nat) (w : Worker) (id : Nat) : SysState :=
  let led2 := recordResult s.led id w.tok (fit id)
  let cnt := w.count + 1
  let boundary := cnt % batch == 0
  { led := led2
    summary := if boundary then merge s.summary led2 else s.summary
    log := s.log ++ [(id, w.tok)]
    mergeLog := if boundary then s.mergeLog ++ [(i, cnt)] else s.mergeLog
    workers := s.workers.set i { w with phase := .idle, count := cnt }
    clock := s.clock + 1 }

/-- Modelled from the spec: one atomic scheduler step of the concurrent
system — worker `i` performs its next ledger operation.  Claims are taken
before fitting and results recorded after, so the long-running fit holds no
ledger-level exclusion: each interleaving of the independent processes is a
schedule of such steps. -/
def sysStep (fit : Nat → FitOutcome) (batch : Nat) (s : SysState) (i : Nat) :
    SysState :=
  match s.workers.get? i with
  | none => s
  | some w =>
      match w.phase with
      | .done => s
      | .idle => applyClaim s i w
      | .fitting id => applyRecord fit batch s i w id

/-- Run the system under a schedule (the list of worker indices picked by the
scheduler). -/
def sysRun (fit : Nat → FitOutcome) (batch : Nat) : SysState → List Nat → SysState
  | s, [] => s
  | s, i :: rest => sysRun fit batch (sysStep fit batch s i) rest

/-- Modelled from the spec: a fresh run — every object Unclaimed, empty summary
artifact, one idle worker per token. -/
def initState (ids0 toks : List Nat) : SysState :=
  { led := { ids := ids0, st := fun _ => .unclaimed }
    summary := []
    log := []
    mergeLog := []
    workers := toks.map fun t => { tok := t, phase := .idle, count := 0 }
    clock := 0 }

/-- All workers have terminated (each saw catalogue-exhausted). -/
def allDoneB (s : SysState) : Bool :=
  s.workers.all fun w => decide (w.phase = .done)

/-- A concrete ledger used by witnesses: object 1 Unclaimed, object 2 Completed,
object 3 Claimed by worker 9. -/
def wled : Ledger :=
  { ids := [1, 2, 3]
    st := fun i => if i = 1 then .unclaimed
           else if i = 2 then .completed 7
           else if i = 3 then .claimed 9 4 else .unclaimed }

/-! ## Embedding of `load_goodss` (from the notebook source)

The row-processing part of `load_goodss` is embedded over exact rationals:
each photometry band is a `(flux, fluxerr)` pair. -/

/-- The error value `9.9*10**99.` substituted for missing fluxes. -/
def bigErr : ℚ := 99 / 10 * 10 ^ 99

/-- One iteration of the first loop of `load_goodss`: blow up the errors
associated with any missing fluxes (`photometry[i, 0] == 0.` or
`photometry[i, 1] <= 0`). -/
def fixMissing (p : ℚ × ℚ) : ℚ × ℚ :=
  if p.1 = 0 ∨ p.2 ≤ 0 then (0, bigErr) else p

/-- The SNR cap of the second loop of `load_goodss`: 20, or 10 in the IRAC
channels (band index 10 and beyond). -/
def maxSNR (i : Nat) : ℚ :=
  if i < 10 then 20 else 10

/-- One iteration of the second loop of `load_goodss`: enforce the maximum
SNR by raising the error to `flux / max_snr` when `flux / err > max_snr`. -/
def capSNR (i : Nat) (p : ℚ × ℚ) : ℚ × ℚ :=
  if p.1 / p.2 > maxSNR i then (p.1, p.1 / maxSNR i) else p

/-- Map with the element index, starting from `i0`. -/
def mapWithIndex (f : Nat → α → β) : Nat → List α → List β
  | _, [] => []
  | i, a :: as => f i a :: mapWithIndex f (i + 1) as

/-- The photometry processing of `load_goodss`: the missing-flux loop followed
by the SNR-capping loop, applied to the selected catalogue row. -/
def processPhotometry (rows : List (ℚ × ℚ)) : List (ℚ × ℚ) :=
  mapWithIndex capSNR 0 (rows.map fixMissing)

/-- NumPy-style row indexing: a negative index `i` selects row
`len + i` (counting from the end); out-of-range indices raise. -/
def npRow (cat : List α) (i : Int) : Option α :=
  if 0 ≤ i then cat.get? i.toNat
  else if 0 ≤ i + cat.length then cat.get? (i + cat.length).toNat
  else none

/-- The row selection of `load_goodss`: `row = int(ID) - 1`, then
`cat[row, ...]` with NumPy indexing semantics. -/
def goodssRow (cat : List α) (ID : Int) : Option α :=
  npRow cat (ID - 1)

/-! ## Basic ledger lemmas -/

theorem setStatus_ids (led : Ledger) (id : Nat) (s : Status) :
    (setStatus led id s).ids = led.ids := rfl

theorem st_setStatus_self (led : Ledger) (id : Nat) (s : Status) :
    (setStatus led id s).st id = s := by
  simp [setStatus]

theorem st_setStatus_ne (led : Ledger) (id j : Nat) (s : Status) (h : j ≠ id) :
    (setStatus led id s).st j = led.st j := by
  simp [setStatus, h]

theorem get_setStatus_self (led : Ledger) (id : Nat) (s : Status) (h : id ∈ led.ids) :
    (setStatus led id s).get id = some s := by
  simp [Ledger.get, setStatus, h]

theorem get_setStatus_ne (led : Ledger) (id j : Nat) (s : Status) (h : j ≠ id) :
    (setStatus led id s).get j = led.get j := by
  simp [Ledger.get, setStatus, h]

theorem countP_congr_of_eq (l : List Nat) (p q : Nat → Bool)
    (h : ∀ a ∈ l, p a = q a) : l.countP p = l.countP q := by
  induction l with
  | nil => rfl
  | cons a as ih =>
      simp only [List.countP_cons]
      rw [h a (by simp), ih fun b hb => h b (by simp [hb])]

/-! ## C2: tryClaim behaviour -/

/-- C2: a `tryClaim` on a record that is not Unclaimed (already-Claimed,
Completed or Failed) returns false and leaves the ledger — hence the record's
status, claim owner, claim timestamp and result — entirely unchanged; it
returns true, transitioning the record to Claimed(workerToken, now), exactly
when the record was Unclaimed. -/
theorem tryClaim_spec (led : Ledger) (id tok now : Nat) :
    (∀ s, led.get id = some s → s ≠ .unclaimed →
        tryClaim led id tok now = (false, led)) ∧
    (led.get id = none → tryClaim led id tok now = (false, led)) ∧
    (led.get id = some .unclaimed →
        tryClaim led id tok now = (true, setStatus led id (.claimed tok now)) ∧
        (tryClaim led id tok now).2.get id = some (.claimed tok now)) ∧
    ((tryClaim led id tok now).1 = true ↔ led.get id = some .unclaimed) := by
  have hidmem : led.get id = some .unclaimed → id ∈ led.ids := by
    intro h
    by_contra hmem
    simp [Ledger.get, hmem] at h
  refine ⟨?_, ?_, ?_, ?_⟩
  · intro s hs hne
    cases s with
    | unclaimed => exact absurd rfl hne
    | claimed o t => simp [tryClaim, hs]
    | completed r => simp [tryClaim, hs]
    | failed => simp [tryClaim, hs]
  · intro h
    simp [tryClaim, h]
  · intro h
    refine ⟨by simp [tryClaim, h], ?_⟩
    simp [tryClaim, h, get_setStatus_self led id _ (hidmem h)]
  · constructor
    · intro h
      by_contra hne
      rcases hg : led.get id with _ | s
      · simp [tryClaim, hg] at h
      · cases s with
        | unclaimed => exact hne hg
        | claimed o t => simp [tryClaim, hg] at h
        | completed r => simp [tryClaim, hg] at h
        | failed => simp [tryClaim, hg] at h
    · intro h
      simp [tryClaim, h]

/-- Witness for C2 at a concrete ledger. -/
theorem tryClaim_spec_witness :
    tryClaim wled 2 5 0 = (false, wled) ∧
    tryClaim wled 3 5 0 = (false, wled) ∧
    (tryClaim wled 1 5 0).1 = true := by
  refine ⟨(tryClaim_spec wled 2 5 0).1 (.completed 7) rfl (by decide), ?_, ?_⟩
  · exact (tryClaim_spec wled 3 5 0).1 (.claimed 9 4) rfl (by decide)
  · exact ((tryClaim_spec wled 1 5 0).2.2.2).mpr rfl

/-! ## C3: clean resets claims and preserves completed/failed work -/

/-- C3: after `clean`, no record is Claimed — every previously Claimed record
is reset to Unclaimed with its claim ownership and timestamp discarded — and
every record that was Completed or Failed is unchanged, so a subsequent
`reportStatus` shows zero claimed and the same completed and failed counts as
before the clean. -/
theorem clean_spec (led : Ledger) :
    (∀ id o t, (clean led).st id ≠ .claimed o t) ∧
    (∀ id o t, led.st id = .claimed o t → (clean led).st id = .unclaimed) ∧
    (∀ id r, led.st id = .completed r → (clean led).st id = .completed r) ∧
    (∀ id, led.st id = .failed → (clean led).st id = .failed) ∧
    (reportStatus (clean led)).claimed = 0 ∧
    (reportStatus (clean led)).completed = (reportStatus led).completed ∧
    (reportStatus (clean led)).failed = (reportStatus led).failed ∧
    (reportStatus (clean led)).total = (reportStatus led).total := by
  have hclean : ∀ s : Status, (cleanStatus s).isClaimed = false := by
    intro s; cases s <;> rfl
  refine ⟨?_, ?_, ?_, ?_, ?_, ?_, ?_, rfl⟩
  · intro id o t h
    cases hs : led.st id <;> simp [clean, cleanStatus, hs] at h
  · intro id o t h
    simp [clean, h, cleanStatus]
  · intro id r h
    simp [clean, h, cleanStatus]
  · intro id h
    simp [clean, h, cleanStatus]
  · have : ∀ a ∈ led.ids, ((clean led).st a).isClaimed = false := by
      intro a _; exact hclean (led.st a)
    simpa [reportStatus] using List.countP_eq_zero.mpr (by
      intro a ha
      simp [this a ha])
  · refine countP_congr_of_eq led.ids _ _ ?_
    intro a _
    show (cleanStatus (led.st a)).isCompleted = (led.st a).isCompleted
    cases led.st a <;> rfl
  · refine countP_congr_of_eq led.ids _ _ ?_
    intro a _
    show (cleanStatus (led.st a)).isFailed = (led.st a).isFailed
    cases led.st a <;> rfl

/-- Witness for C3 at a concrete ledger. -/
theorem clean_spec_witness :
    (clean wled).st 3 = .unclaimed ∧
    (clean wled).st 2 = .completed 7 ∧
    (reportStatus (clean wled)).claimed = 0 := by
  refine ⟨(clean_spec wled).2.1 3 9 4 rfl, ?_, ?_⟩
  · exact (clean_spec wled).2.2.1 2 7 rfl
  · exact (clean_spec wled).2.2.2.2.1

/-! ## C4: merge is idempotent and preserves unrelated rows -/

/-- C4: with no new completions between the two calls (same ledger), running
`merge` twice produces a summary artifact identical to running it once; and a
merge never deletes or overwrites a summary row for an object that is not among
the Completed objects being merged. -/
theorem merge_idem (summary : List (Nat × Nat)) (led : Ledger) :
    merge (merge summary led) led = merge summary led ∧
    (∀ row ∈ summary, row.1 ∉ (completedRows led).map Prod.fst →
        row ∈ merge summary led) := by
  set comp := completedRows led with hcomp
  set P : Nat × Nat → Bool := fun row => !comp.any fun c => c.1 == row.1 with hP
  constructor
  · show (summary.filter P ++ comp).filter P ++ comp = summary.filter P ++ comp
    have h1 : (summary.filter P).filter P = summary.filter P := by
      apply List.filter_eq_self.mpr
      intro a ha
      exact (List.mem_filter.mp ha).2
    have h2 : comp.filter P = [] := by
      apply List.filter_eq_nil_iff.mpr
      intro c hc
      have : comp.any (fun d => d.1 == c.1) = true :=
        List.any_eq_true.mpr ⟨c, hc, by simp⟩
      simp [hP, this]
    rw [List.filter_append, h1, h2, List.append_nil]
  · intro row hrow hnot
    have hPr : P row = true := by
      simp only [hP, Bool.not_eq_true']
      apply List.any_eq_false.mpr
      intro c hc
      intro heq
      exact hnot (List.mem_map.mpr ⟨c, hc, by simpa using heq⟩)
    exact List.mem_append_left _ (List.mem_filter.mpr ⟨hrow, hPr⟩)

/-- Witness for C4 at a concrete summary and ledger. -/
theorem merge_idem_witness :
    merge (merge [(5, 11), (2, 3)] wled) wled = merge [(5, 11), (2, 3)] wled ∧
    (5, 11) ∈ merge [(5, 11), (2, 3)] wled := by
  refine ⟨(merge_idem [(5, 11), (2, 3)] wled).1, ?_⟩
  exact (merge_idem [(5, 11), (2, 3)] wled).2 (5, 11) (by simp) (by decide)

/-! ## Coordinator lemmas -/

theorem tryClaim_of_unclaimed (led : Ledger) (id tok now : Nat)
    (h : getUnclaimed led id = true) :
    tryClaim led id tok now = (true, setStatus led id (.claimed tok now)) := by
  unfold getUnclaimed at h
  rcases hg : led.get id with _ | s
  · rw [hg] at h; simp at h
  · cases s with
    | unclaimed => simp [tryClaim, hg]
    | claimed o t => rw [hg] at h; simp at h
    | completed r => rw [hg] at h; simp at h
    | failed => rw [hg] at h; simp at h

theorem tryClaim_of_not_unclaimed (led : Ledger) (id tok now : Nat)
    (h : getUnclaimed led id = false) :
    tryClaim led id tok now = (false, led) := by
  unfold getUnclaimed at h
  rcases hg : led.get id with _ | s
  · simp [tryClaim, hg]
  · cases s with
    | unclaimed => rw [hg] at h; simp at h
    | claimed o t => simp [tryClaim, hg]
    | completed r => simp [tryClaim, hg]
    | failed => simp [tryClaim, hg]

theorem getUnclaimed_iff (led : Ledger) (c : Nat) :
    getUnclaimed led c = true ↔ c ∈ led.ids ∧ (led.st c).isUnclaimed = true := by
  unfold getUnclaimed Ledger.get
  by_cases hc : c ∈ led.ids
  · simp only [hc, if_pos]
    cases h : led.st c <;> simp [Status.isUnclaimed, hc]
  · simp [hc]

theorem mem_candidates (led : Ledger) (c : Nat) :
    c ∈ candidates led ↔ getUnclaimed led c = true := by
  unfold candidates
  rw [(List.perm_insertionSort _ _).mem_iff, List.mem_filter, getUnclaimed_iff]

theorem candidates_nil_iff (led : Ledger) :
    candidates led = [] ↔ ∀ id ∈ led.ids, (led.st id).isUnclaimed = false := by
  constructor
  · intro h id hid
    by_contra hne
    have : id ∈ candidates led :=
      (mem_candidates led id).mpr
        ((getUnclaimed_iff led id).mpr ⟨hid, by simpa using hne⟩)
    simp [h] at this
  · intro h
    have : led.ids.filter (fun i => (led.st i).isUnclaimed) = [] :=
      List.filter_eq_nil_iff.mpr fun a ha => by simp [h a ha]
    unfold candidates
    rw [this]
    rfl

theorem candidates_nodup (led : Ledger) (h : led.ids.Nodup) :
    (candidates led).Nodup :=
  (List.perm_insertionSort _ _).nodup_iff.mpr (h.filter _)

theorem candidates_sorted (led : Ledger) :
    List.Sorted (· ≤ ·) (candidates led) :=
  List.sorted_insertionSort _ _

theorem claimScan_claims (tok now : Nat) :
    ∀ (cands : List Nat) (led : Ledger) (n : Nat), cands.Nodup →
      (claimScan tok now led cands n).1 = (cands.filter (getUnclaimed led)).take n := by
  intro cands
  induction cands with
  | nil =>
      intro led n _
      cases n <;> simp [claimScan]
  | cons c rest ih =>
      intro led n hnd
      rcases n with _ | m
      · simp [claimScan]
      · have hcrest : c ∉ rest := (List.nodup_cons.mp hnd).1
        have hrest : rest.Nodup := (List.nodup_cons.mp hnd).2
        by_cases hc : getUnclaimed led c = true
        · have htc := tryClaim_of_unclaimed led c tok now hc
          have hfilt : rest.filter (getUnclaimed (setStatus led c (.claimed tok now)))
              = rest.filter (getUnclaimed led) := by
            apply List.filter_congr
            intro a ha
            have hne : a ≠ c := fun h => hcrest (h ▸ ha)
            unfold getUnclaimed
            rw [get_setStatus_ne led c a _ hne]
          simp only [claimScan, htc, if_true]
          rw [List.filter_cons_of_pos (by simpa using hc), List.take_succ_cons]
          simp [ih _ m hrest, hfilt]
        · have hcf : getUnclaimed led c = false := by simpa using hc
          have htc := tryClaim_of_not_unclaimed led c tok now hcf
          simp only [claimScan, htc, Bool.false_eq_true, if_false]
          rw [List.filter_cons_of_neg (by simp [hcf])]
          exact ih _ (m + 1) hrest

theorem claimNext_exhausted_iff (led : Ledger) (tok now n : Nat) :
    (claimNext led tok now n).1 = .exhausted ↔
      ∀ id ∈ led.ids, (led.st id).isUnclaimed = false := by
  rw [← candidates_nil_iff]
  unfold claimNext
  by_cases h : (candidates led).isEmpty
  · simp [h, List.isEmpty_iff.mp h]
  · simp only [h, if_neg, Bool.false_eq_true, not_false_iff]
    constructor
    · intro hc; cases hc
    · intro hc
      rw [hc] at h
      simp at h

/-- The characterisation of a single-claim coordinator call, used by the
worker-loop machine: either the catalogue is exhausted and the ledger is
untouched, or the first (smallest-ID) unclaimed candidate is claimed. -/
theorem claimNext_one (led : Ledger) (tok now : Nat) :
    (candidates led = [] ∧ claimNext led tok now 1 = (.exhausted, led)) ∨
    (∃ c rest, candidates led = c :: rest ∧ getUnclaimed led c = true ∧
      (∀ d ∈ rest, c ≤ d) ∧
      claimNext led tok now 1 = (.claims [c], setStatus led c (.claimed tok now))) := by
  rcases hc : candidates led with _ | ⟨c, rest⟩
  · left
    refine ⟨rfl, ?_⟩
    unfold claimNext
    rw [hc]
    rfl
  · right
    have hcu : getUnclaimed led c = true :=
      (mem_candidates led c).mp (by rw [hc]; exact List.mem_cons_self c rest)
    refine ⟨c, rest, rfl, hcu, ?_, ?_⟩
    · intro d hd
      have := candidates_sorted led
      rw [hc] at this
      exact (List.sorted_cons.mp this).1 d hd
    · unfold claimNext
      rw [hc]
      simp only [List.isEmpty_cons, if_neg, Bool.false_eq_true, not_false_iff]
      have htc := tryClaim_of_unclaimed led c tok now hcu
      simp [claimScan, htc]

/-! ## Status and worker-list helper lemmas -/

theorem isUnclaimed_true_iff (s : Status) : s.isUnclaimed = true ↔ s = .unclaimed := by
  cases s <;> simp [Status.isUnclaimed]

theorem isUnclaimed_false_iff (s : Status) : s.isUnclaimed = false ↔ s ≠ .unclaimed := by
  cases s <;> simp [Status.isUnclaimed]

theorem isClaimed_true_iff (s : Status) : s.isClaimed = true ↔ ∃ o t, s = .claimed o t := by
  cases s <;> simp [Status.isClaimed]

theorem isCompleted_true_iff (s : Status) : s.isCompleted = true ↔ ∃ r, s = .completed r := by
  cases s <;> simp [Status.isCompleted]

theorem outcomeStatus_not_unclaimed (out : FitOutcome) : outcomeStatus out ≠ .unclaimed := by
  cases out <;> simp [outcomeStatus]

theorem outcomeStatus_not_claimed (out : FitOutcome) (o t : Nat) :
    outcomeStatus out ≠ .claimed o t := by
  cases out <;> simp [outcomeStatus]

theorem outcomeStatus_finished (out : FitOutcome) :
    (outcomeStatus out).isCompleted = true ∨ (outcomeStatus out).isFailed = true := by
  cases out <;> simp [outcomeStatus, Status.isCompleted, Status.isFailed]

theorem get?_set_self (l : List α) (i : Nat) (a b : α) (h : l.get? i = some a) :
    (l.set i b).get? i = some b := by
  have hi : i < l.length := (List.get?_eq_some.mp h).1
  rw [List.get?_eq_getElem?, List.getElem?_set]
  simp [hi]

theorem get?_set_other (l : List α) (i j : Nat) (b : α) (h : i ≠ j) :
    (l.set i b).get? j = l.get? j := by
  rw [List.get?_eq_getElem?, List.get?_eq_getElem?, List.getElem?_set]
  simp [h]

theorem map_tok_set (l : List Worker) (i : Nat) (w w' : Worker)
    (hw : l.get? i = some w) (ht : w'.tok = w.tok) :
    (l.set i w').map Worker.tok = l.map Worker.tok := by
  apply List.ext_get?
  intro n
  by_cases hn : n = i
  · subst hn
    rw [List.get?_map, List.get?_map, get?_set_self _ _ _ _ hw, hw]
    simp [ht]
  · rw [List.get?_map, List.get?_map, get?_set_other _ _ _ _ fun he => hn he.symm]

theorem recordResult_of_claimed (led : Ledger) (id tok t : Nat) (out : FitOutcome)
    (hmem : id ∈ led.ids) (hst : led.st id = .claimed tok t) :
    recordResult led id tok out = setStatus led id (outcomeStatus out) := by
  unfold recordResult Ledger.get
  rw [if_pos hmem, hst]
  simp

theorem recordResult_st (led : Ledger) (id tok : Nat) (out : FitOutcome) (j : Nat) :
    (recordResult led id tok out).st j = led.st j ∨
      (j = id ∧ (recordResult led id tok out).st j = outcomeStatus out) := by
  rcases hg : led.get id with _ | s
  · left
    unfold recordResult
    rw [hg]
  · cases s with
    | claimed o t =>
        by_cases ho : o = tok
        · have hmem : id ∈ led.ids := by
            by_contra hm
            unfold Ledger.get at hg
            rw [if_neg hm] at hg
            cases hg
          have hst : led.st id = .claimed tok t := by
            unfold Ledger.get at hg
            rw [if_pos hmem] at hg
            rw [← ho]
            exact Option.some_inj.mp hg
          rw [recordResult_of_claimed led id tok t out hmem hst]
          by_cases hj : j = id
          · right
            exact ⟨hj, by rw [hj, st_setStatus_self]⟩
          · left
            exact st_setStatus_ne _ _ _ _ hj
        · left
          unfold recordResult
          rw [hg]
          show (if o = tok then setStatus led id (outcomeStatus out) else led).st j = led.st j
          rw [if_neg ho]
    | unclaimed => left; unfold recordResult; rw [hg]
    | completed r => left; unfold recordResult; rw [hg]
    | failed => left; unfold recordResult; rw [hg]

theorem recordResult_ids (led : Ledger) (id tok : Nat) (out : FitOutcome) :
    (recordResult led id tok out).ids = led.ids := by
  unfold recordResult
  rcases led.get id with _ | s
  · rfl
  · cases s with
    | claimed o t => by_cases ho : o = tok <;> simp [ho, setStatus]
    | unclaimed => rfl
    | completed r => rfl
    | failed => rfl

theorem mem_completedRows (led : Ledger) (row : Nat × Nat) :
    row ∈ completedRows led ↔
      row.1 ∈ led.ids ∧ led.st row.1 = .completed row.2 := by
  unfold completedRows
  rw [List.mem_filterMap]
  constructor
  · rintro ⟨a, ha, heq⟩
    rcases hs : led.st a with _ | ⟨o, t⟩ | r | _ <;> rw [hs] at heq
    · cases heq
    · cases heq
    · rw [Option.some_inj] at heq
      subst heq
      exact ⟨ha, hs⟩
    · cases heq
  · rintro ⟨hmem, hst⟩
    exact ⟨row.1, hmem, by rw [hst]⟩

/-! ## The protocol invariant -/

/-- The inductive invariant of the concurrent run: every fitting worker holds
the claim on its object, every claim is held by a fitting worker, live
(unclaimed or claimed) objects are not yet in the result log, finished objects
are logged exactly once, a terminated worker saw an exhausted catalogue, and
summary rows only describe completed objects of the run. -/
structure WellFormed (ids0 toks : List Nat) (s : SysState) : Prop where
  ids_eq : s.led.ids = ids0
  toks_eq : s.workers.map Worker.tok = toks
  fits_claimed : ∀ j w id, s.workers.get? j = some w → w.phase = .fitting id →
      id ∈ ids0 ∧ ∃ t, s.led.st id = .claimed w.tok t
  claimed_fitter : ∀ id o t, id ∈ ids0 → s.led.st id = .claimed o t →
      ∃ j w, s.workers.get? j = some w ∧ w.tok = o ∧ w.phase = .fitting id
  live_not_logged : ∀ id, id ∈ ids0 →
      (s.led.st id = .unclaimed ∨ (s.led.st id).isClaimed = true) →
      id ∉ s.log.map Prod.fst
  finished_logged_once : ∀ id, id ∈ ids0 →
      ((s.led.st id).isCompleted = true ∨ (s.led.st id).isFailed = true) →
      (s.log.map Prod.fst).count id = 1
  log_entries : ∀ e ∈ s.log, e.1 ∈ ids0 ∧ e.2 ∈ toks
  done_no_unclaimed : (∃ w ∈ s.workers, w.phase = .done) →
      ∀ id ∈ ids0, s.led.st id ≠ .unclaimed
  summary_rows : ∀ row ∈ s.summary,
      row.1 ∈ ids0 ∧ (s.led.st row.1).isCompleted = true

theorem tok_inj {ids0 toks : List Nat} {s : SysState} (htoks : toks.Nodup)
    (h : WellFormed ids0 toks s) :
    ∀ j k wj wk, s.workers.get? j = some wj → s.workers.get? k = some wk →
      wj.tok = wk.tok → j = k := by
  intro j k wj wk hj hk he
  have hj' : toks.get? j = some wj.tok := by
    rw [← h.toks_eq, List.get?_map, hj]; rfl
  have hk' : toks.get? k = some wk.tok := by
    rw [← h.toks_eq, List.get?_map, hk]; rfl
  have hlt : j < toks.length := (List.get?_eq_some.mp hj').1
  exact List.get?_inj hlt htoks (by rw [hj', hk', he])

theorem tok_mem {ids0 toks : List Nat} {s : SysState} {i : Nat} {w : Worker}
    (h : WellFormed ids0 toks s) (hw : s.workers.get? i = some w) : w.tok ∈ toks := by
  rw [← h.toks_eq]
  exact List.mem_map.mpr ⟨w, List.get?_mem hw, rfl⟩

theorem wf_init (ids0 toks : List Nat) : WellFormed ids0 toks (initState ids0 toks) := by
  refine ⟨rfl, ?_, ?_, ?_, ?_, ?_, ?_, ?_, ?_⟩
  · show List.map Worker.tok (toks.map fun t => { tok := t, phase := .idle, count := 0 }) = toks
    rw [List.map_map]
    show List.map (fun t : Nat => t) toks = toks
    exact List.map_id' toks
  · intro j w id hj hph
    simp only [initState, List.get?_map] at hj
    rcases ht : toks.get? j with _ | t <;> rw [ht] at hj
    · cases hj
    · have hw : ({ tok := t, phase := .idle, count := 0 } : Worker) = w := by
        simpa using hj
      rw [← hw] at hph
      cases hph
  · intro id o t _ hcl
    cases hcl
  · intro id _ _
    simp [initState]
  · intro id _ hfin
    rcases hfin with hfin | hfin <;>
      simp [initState, Status.isCompleted, Status.isFailed] at hfin
  · intro e he
    simp [initState] at he
  · rintro ⟨w, hw, hph⟩
    simp only [initState, List.mem_map] at hw
    rcases hw with ⟨t, _, rfl⟩
    cases hph
  · intro row hrow
    simp [initState] at hrow

theorem wf_idle_exhausted (ids0 toks : List Nat) (s : SysState) (i : Nat) (w : Worker)
    (h : WellFormed ids0 toks s) (hg : s.workers.get? i = some w)
    (hph : w.phase = .idle) (hcand : candidates s.led = []) :
    WellFormed ids0 toks
      { s with workers := s.workers.set i { w with phase := .done }
               clock := s.clock + 1 } := by
  refine ⟨h.ids_eq, ?_, ?_, ?_, h.live_not_logged, h.finished_logged_once,
    h.log_entries, ?_, h.summary_rows⟩
  · show (s.workers.set i _).map Worker.tok = toks
    rw [map_tok_set s.workers i w { w with phase := .done } hg rfl]
    exact h.toks_eq
  · intro j w2 id hj hph2
    by_cases hji : j = i
    · subst hji
      rw [get?_set_self _ _ _ _ hg] at hj
      rw [← Option.some_inj.mp hj] at hph2
      cases hph2
    · rw [get?_set_other _ _ _ _ fun he => hji he.symm] at hj
      exact h.fits_claimed j w2 id hj hph2
  · intro id o t hid hcl
    obtain ⟨j, w', hj, htok, hph'⟩ := h.claimed_fitter id o t hid hcl
    have hji : j ≠ i := by
      intro he
      subst he
      rw [hg, Option.some_inj] at hj
      rw [← hj, hph] at hph'
      cases hph'
    exact ⟨j, w', by
      rw [get?_set_other _ _ _ _ fun he => hji he.symm]
      exact hj, htok, hph'⟩
  · intro _ id hid
    exact (isUnclaimed_false_iff _).mp
      ((candidates_nil_iff s.led).mp hcand id (h.ids_eq ▸ hid))

theorem wf_idle_claims (ids0 toks : List Nat) (s : SysState) (i : Nat) (w : Worker)
    (c : Nat) (h : WellFormed ids0 toks s) (hg : s.workers.get? i = some w)
    (hph : w.phase = .idle) (hcu : getUnclaimed s.led c = true) :
    WellFormed ids0 toks
      { s with led := setStatus s.led c (.claimed w.tok s.clock)
               workers := s.workers.set i { w with phase := .fitting c }
               clock := s.clock + 1 } := by
  have hcm : c ∈ s.led.ids := ((getUnclaimed_iff s.led c).mp hcu).1
  have hcU : s.led.st c = .unclaimed :=
    (isUnclaimed_true_iff _).mp ((getUnclaimed_iff s.led c).mp hcu).2
  have hcid0 : c ∈ ids0 := h.ids_eq ▸ hcm
  have hself : (setStatus s.led c (.claimed w.tok s.clock)).st c
      = .claimed w.tok s.clock := st_setStatus_self _ _ _
  have hother : ∀ id, id ≠ c →
      (setStatus s.led c (.claimed w.tok s.clock)).st id = s.led.st id :=
    fun id hid => st_setStatus_ne _ _ _ _ hid
  refine ⟨?_, ?_, ?_, ?_, ?_, ?_, h.log_entries, ?_, ?_⟩
  · show (setStatus s.led c _).ids = ids0
    rw [setStatus_ids]
    exact h.ids_eq
  · show (s.workers.set i _).map Worker.tok = toks
    rw [map_tok_set s.workers i w { w with phase := .fitting c } hg rfl]
    exact h.toks_eq
  · intro j w2 id hj hph2
    by_cases hji : j = i
    · subst hji
      rw [get?_set_self _ _ _ _ hg] at hj
      rw [← Option.some_inj.mp hj] at hph2
      have hidc : id = c := by
        cases hph2
        rfl
      subst hidc
      refine ⟨hcid0, s.clock, ?_⟩
      show (setStatus s.led id (.claimed w.tok s.clock)).st id = .claimed w2.tok s.clock
      rw [← Option.some_inj.mp hj]
      exact hself
    · rw [get?_set_other _ _ _ _ fun he => hji he.symm] at hj
      obtain ⟨hid0, t, hst⟩ := h.fits_claimed j w2 id hj hph2
      have hic : id ≠ c := by
        intro he
        rw [he, hcU] at hst
        cases hst
      refine ⟨hid0, t, ?_⟩
      show (setStatus s.led c _).st id = _
      rw [hother id hic]
      exact hst
  · intro id o t hid hcl
    by_cases hic : id = c
    · subst hic
      have hcl' : (setStatus s.led id (.claimed w.tok s.clock)).st id
          = Status.claimed o t := hcl
      rw [hself] at hcl'
      have how : o = w.tok := by
        cases hcl'
        rfl
      exact ⟨i, { w with phase := .fitting id }, get?_set_self _ _ _ _ hg, how.symm, rfl⟩
    · have hcl' : s.led.st id = Status.claimed o t := by
        rw [← hother id hic]
        exact hcl
      obtain ⟨j, w', hj, htok, hph'⟩ := h.claimed_fitter id o t hid hcl'
      have hji : j ≠ i := by
        intro he
        subst he
        rw [hg, Option.some_inj] at hj
        rw [← hj, hph] at hph'
        cases hph'
      exact ⟨j, w', by
        rw [get?_set_other _ _ _ _ fun he => hji he.symm]
        exact hj, htok, hph'⟩
  · intro id hid hlive
    by_cases hic : id = c
    · subst hic
      exact h.live_not_logged id hid (Or.inl hcU)
    · have hlive' : s.led.st id = .unclaimed ∨ (s.led.st id).isClaimed = true := by
        rw [← hother id hic]
        exact hlive
      exact h.live_not_logged id hid hlive'
  · intro id hid hfin
    by_cases hic : id = c
    · subst hic
      have hfin' : (Status.claimed w.tok s.clock).isCompleted = true ∨
          (Status.claimed w.tok s.clock).isFailed = true := by
        rw [← hself]
        exact hfin
      rcases hfin' with hfin' | hfin' <;> cases hfin'
    · have hfin' : (s.led.st id).isCompleted = true ∨ (s.led.st id).isFailed = true := by
        rw [← hother id hic]
        exact hfin
      exact h.finished_logged_once id hid hfin'
  · rintro ⟨w2, hw2, hph2⟩
    obtain ⟨j, hj⟩ := List.mem_iff_get?.mp hw2
    by_cases hji : j = i
    · subst hji
      rw [get?_set_self _ _ _ _ hg] at hj
      rw [← Option.some_inj.mp hj] at hph2
      cases hph2
    · rw [get?_set_other _ _ _ _ fun he => hji he.symm] at hj
      exact absurd hcU
        (h.done_no_unclaimed ⟨w2, List.get?_mem hj, hph2⟩ c hcid0)
  · intro row hrow
    obtain ⟨hr0, hrc⟩ := h.summary_rows row hrow
    have hrc' : row.1 ≠ c := by
      intro he
      rw [he, hcU] at hrc
      cases hrc
    refine ⟨hr0, ?_⟩
    show ((setStatus s.led c _).st row.1).isCompleted = true
    rw [hother row.1 hrc']
    exact hrc

theorem wf_fitting (ids0 toks : List Nat) (htoks : toks.Nodup)
    (fit : Nat → FitOutcome) (batch : Nat) (s : SysState) (i : Nat) (w : Worker)
    (id : Nat) (h : WellFormed ids0 toks s) (hg : s.workers.get? i = some w)
    (hph : w.phase = .fitting id) :
    WellFormed ids0 toks (applyRecord fit batch s i w id) := by
  obtain ⟨hid0, t, hst⟩ := h.fits_claimed i w id hg hph
  have hmem : id ∈ s.led.ids := h.ids_eq ▸ hid0
  have hrec : recordResult s.led id w.tok (fit id)
      = setStatus s.led id (outcomeStatus (fit id)) :=
    recordResult_of_claimed s.led id w.tok t (fit id) hmem hst
  have hself : (applyRecord fit batch s i w id).led.st id = outcomeStatus (fit id) := by
    show (recordResult s.led id w.tok (fit id)).st id = _
    rw [hrec, st_setStatus_self]
  have hother : ∀ j, j ≠ id →
      (applyRecord fit batch s i w id).led.st j = s.led.st j := by
    intro j hj
    show (recordResult s.led id w.tok (fit id)).st j = _
    rw [hrec]
    exact st_setStatus_ne _ _ _ _ hj
  have hids2 : (applyRecord fit batch s i w id).led.ids = ids0 := by
    show (recordResult s.led id w.tok (fit id)).ids = ids0
    rw [recordResult_ids]
    exact h.ids_eq
  refine ⟨hids2, ?_, ?_, ?_, ?_, ?_, ?_, ?_, ?_⟩
  · show (s.workers.set i _).map Worker.tok = toks
    rw [map_tok_set s.workers i w { w with phase := .idle, count := w.count + 1 } hg rfl]
    exact h.toks_eq
  · intro j w2 id2 hj hph2
    have hj0 : (s.workers.set i
        { w with phase := .idle, count := w.count + 1 }).get? j = some w2 := hj
    by_cases hji : j = i
    · rw [hji, get?_set_self _ _ _ _ hg] at hj0
      rw [← Option.some_inj.mp hj0] at hph2
      cases hph2
    · rw [get?_set_other _ _ _ _ fun he => hji he.symm] at hj0
      obtain ⟨hid2, t2, hst2⟩ := h.fits_claimed j w2 id2 hj0 hph2
      have hne : id2 ≠ id := by
        intro he
        rw [he, hst] at hst2
        have htokeq : w2.tok = w.tok := (Status.claimed.inj hst2.symm).1
        exact hji (tok_inj htoks h j i w2 w hj0 hg htokeq)
      refine ⟨hid2, t2, ?_⟩
      rw [hother id2 hne]
      exact hst2
  · intro id2 o t2 hid2 hcl
    by_cases hic : id2 = id
    · subst hic
      rw [hself] at hcl
      exact absurd hcl (outcomeStatus_not_claimed _ o t2)
    · rw [hother id2 hic] at hcl
      obtain ⟨j, w', hj, htok', hph'⟩ := h.claimed_fitter id2 o t2 hid2 hcl
      have hji : j ≠ i := by
        intro he
        subst he
        rw [hg, Option.some_inj] at hj
        rw [← hj, hph] at hph'
        have : id = id2 := by
          cases hph'
          rfl
        exact hic this.symm
      exact ⟨j, w', by
        show (s.workers.set i _).get? j = some w'
        rw [get?_set_other _ _ _ _ fun he => hji he.symm]
        exact hj, htok', hph'⟩
  · intro id2 hid2 hlive
    have hne : id2 ≠ id := by
      intro he
      subst he
      rw [hself] at hlive
      rcases hlive with hl | hl
      · exact outcomeStatus_not_unclaimed _ hl
      · cases hfit : fit id2 <;> rw [hfit] at hl <;>
          simp [outcomeStatus, Status.isClaimed] at hl
    rw [hother id2 hne] at hlive
    have hold := h.live_not_logged id2 hid2 hlive
    show id2 ∉ (s.log ++ [(id, w.tok)]).map Prod.fst
    rw [List.map_append]
    intro hmem2
    rcases List.mem_append.mp hmem2 with hmem2 | hmem2
    · exact hold hmem2
    · simp only [List.map_cons, List.map_nil, List.mem_singleton] at hmem2
      exact hne hmem2
  · intro id2 hid2 hfin
    show ((s.log ++ [(id, w.tok)]).map Prod.fst).count id2 = 1
    rw [List.map_append, List.count_append]
    by_cases hic : id2 = id
    · subst hic
      have hnotin : id2 ∉ s.log.map Prod.fst :=
        h.live_not_logged id2 hid2 (Or.inr (by rw [hst]; rfl))
      rw [List.count_eq_zero.mpr hnotin]
      simp
    · rw [hother id2 hic] at hfin
      rw [h.finished_logged_once id2 hid2 hfin]
      simp [hic]
  · intro e he
    have he' : e ∈ s.log ++ [(id, w.tok)] := he
    rcases List.mem_append.mp he' with he2 | he2
    · exact h.log_entries e he2
    · have heq : e = (id, w.tok) := by simpa using he2
      subst heq
      exact ⟨hid0, tok_mem h hg⟩
  · rintro ⟨w2, hw2, hph2⟩
    intro id2 hid2
    obtain ⟨j, hj⟩ := List.mem_iff_get?.mp hw2
    have hj0 : (s.workers.set i
        { w with phase := .idle, count := w.count + 1 }).get? j = some w2 := hj
    have hji : j ≠ i := by
      intro he
      rw [he, get?_set_self _ _ _ _ hg] at hj0
      rw [← Option.some_inj.mp hj0] at hph2
      cases hph2
    have hj' : s.workers.get? j = some w2 := by
      rw [get?_set_other _ _ _ _ fun he => hji he.symm] at hj0
      exact hj0
    have hold := h.done_no_unclaimed ⟨w2, List.get?_mem hj', hph2⟩ id2 hid2
    by_cases hic : id2 = id
    · subst hic
      rw [hself]
      exact outcomeStatus_not_unclaimed _
    · rw [hother id2 hic]
      exact hold
  · intro row hrow
    have hprev : row ∈ s.summary →
        row.1 ∈ ids0 ∧
          ((applyRecord fit batch s i w id).led.st row.1).isCompleted = true := by
      intro hrs
      obtain ⟨hr0, hrc⟩ := h.summary_rows row hrs
      have hne : row.1 ≠ id := by
        intro he
        rw [he, hst] at hrc
        simp [Status.isCompleted] at hrc
      refine ⟨hr0, ?_⟩
      rw [hother row.1 hne]
      exact hrc
    have hrow' : row ∈ (if ((w.count + 1) % batch == 0) = true
        then merge s.summary (recordResult s.led id w.tok (fit id))
        else s.summary) := hrow
    by_cases hb : ((w.count + 1) % batch == 0) = true
    · rw [if_pos hb] at hrow'
      rcases List.mem_append.mp hrow' with hr | hr
      · exact hprev (List.mem_filter.mp hr).1
      · obtain ⟨hm2, hst2⟩ := (mem_completedRows _ row).mp hr
        rw [recordResult_ids] at hm2
        refine ⟨h.ids_eq ▸ hm2, ?_⟩
        show ((recordResult s.led id w.tok (fit id)).st row.1).isCompleted = true
        rw [hst2]
        rfl
    · rw [if_neg hb] at hrow'
      exact hprev hrow'

theorem sysStep_none (fit : Nat → FitOutcome) (batch : Nat) (s : SysState) (i : Nat)
    (hg : s.workers.get? i = none) : sysStep fit batch s i = s := by
  unfold sysStep
  rw [hg]

theorem sysStep_idle (fit : Nat → FitOutcome) (batch : Nat) (s : SysState) (i : Nat)
    (w : Worker) (hg : s.workers.get? i = some w) (hph : w.phase = .idle) :
    sysStep fit batch s i = applyClaim s i w := by
  obtain ⟨wt, wph, wc⟩ := w
  cases wph
  · unfold sysStep
    rw [hg]
  · exact absurd hph (by simp)
  · exact absurd hph (by simp)

theorem sysStep_fitting (fit : Nat → FitOutcome) (batch : Nat) (s : SysState) (i : Nat)
    (w : Worker) (id : Nat) (hg : s.workers.get? i = some w)
    (hph : w.phase = .fitting id) :
    sysStep fit batch s i = applyRecord fit batch s i w id := by
  obtain ⟨wt, wph, wc⟩ := w
  cases wph with
  | idle => exact absurd hph (by simp)
  | fitting id2 =>
      have hid : id2 = id := by
        cases hph
        rfl
      subst hid
      unfold sysStep
      rw [hg]
  | done => exact absurd hph (by simp)

theorem sysStep_done (fit : Nat → FitOutcome) (batch : Nat) (s : SysState) (i : Nat)
    (w : Worker) (hg : s.workers.get? i = some w) (hph : w.phase = .done) :
    sysStep fit batch s i = s := by
  obtain ⟨wt, wph, wc⟩ := w
  cases wph
  · exact absurd hph (by simp)
  · exact absurd hph (by simp)
  · unfold sysStep
    rw [hg]

theorem wf_step (ids0 toks : List Nat) (htoks : toks.Nodup)
    (fit : Nat → FitOutcome) (batch : Nat) (s : SysState) (i : Nat)
    (h : WellFormed ids0 toks s) :
    WellFormed ids0 toks (sysStep fit batch s i) := by
  rcases hg : s.workers.get? i with _ | w
  · rw [sysStep_none fit batch s i hg]
    exact h
  · rcases hph : w.phase with _ | id | _
    · rw [sysStep_idle fit batch s i w hg hph]
      rcases claimNext_one s.led w.tok s.clock with ⟨hcand, hcn⟩ |
        ⟨c, rest, hcand, hcu, hmin, hcn⟩
      · unfold applyClaim
        rw [hcn]
        exact wf_idle_exhausted ids0 toks s i w h hg hph hcand
      · unfold applyClaim
        rw [hcn]
        exact wf_idle_claims ids0 toks s i w c h hg hph hcu
    · rw [sysStep_fitting fit batch s i w id hg hph]
      exact wf_fitting ids0 toks htoks fit batch s i w id h hg hph
    · rw [sysStep_done fit batch s i w hg hph]
      exact h

theorem wf_run (ids0 toks : List Nat) (htoks : toks.Nodup)
    (fit : Nat → FitOutcome) (batch : Nat) :
    ∀ (sch : List Nat) (s : SysState), WellFormed ids0 toks s →
      WellFormed ids0 toks (sysRun fit batch s sch) := by
  intro sch
  induction sch with
  | nil => intro s h; exact h
  | cons i rest ih =>
      intro s h
      exact ih _ (wf_step ids0 toks htoks fit batch s i h)

/-- No record is Failed — an invariant when the fit subroutine never fails. -/
def NoFailed (s : SysState) : Prop := ∀ id, s.led.st id ≠ .failed

theorem applyClaim_st (s : SysState) (i : Nat) (w : Worker) (j : Nat) :
    (applyClaim s i w).led.st j = s.led.st j ∨
      ∃ o t, (applyClaim s i w).led.st j = .claimed o t := by
  rcases claimNext_one s.led w.tok s.clock with ⟨_, hcn⟩ | ⟨c, rest, _, _, _, hcn⟩
  · left
    unfold applyClaim
    rw [hcn]
  · unfold applyClaim
    rw [hcn]
    by_cases hj : j = c
    · right
      refine ⟨w.tok, s.clock, ?_⟩
      show (setStatus s.led c (.claimed w.tok s.clock)).st j = _
      rw [hj, st_setStatus_self]
    · left
      show (setStatus s.led c (.claimed w.tok s.clock)).st j = _
      exact st_setStatus_ne _ _ _ _ hj

theorem noFailed_step (fit : Nat → FitOutcome) (batch : Nat) (s : SysState) (i : Nat)
    (hfit : ∀ id, fit id ≠ .failure) (h : NoFailed s) :
    NoFailed (sysStep fit batch s i) := by
  intro j
  rcases hg : s.workers.get? i with _ | w
  · rw [sysStep_none fit batch s i hg]
    exact h j
  · rcases hph : w.phase with _ | id | _
    · rw [sysStep_idle fit batch s i w hg hph]
      rcases applyClaim_st s i w j with hc | ⟨o, t, hc⟩ <;> rw [hc]
      · exact h j
      · intro he; cases he
    · rw [sysStep_fitting fit batch s i w id hg hph]
      rcases recordResult_st s.led id w.tok (fit id) j with hc | ⟨_, hc⟩
      · show (recordResult s.led id w.tok (fit id)).st j ≠ .failed
        rw [hc]
        exact h j
      · show (recordResult s.led id w.tok (fit id)).st j ≠ .failed
        rw [hc]
        rcases hf : fit id with r | _
        · simp [outcomeStatus]
        · exact absurd hf (hfit id)
    · rw [sysStep_done fit batch s i w hg hph]
      exact h j

theorem noFailed_run (fit : Nat → FitOutcome) (batch : Nat)
    (hfit : ∀ id, fit id ≠ .failure) :
    ∀ (sch : List Nat) (s : SysState), NoFailed s →
      NoFailed (sysRun fit batch s sch) := by
  intro sch
  induction sch with
  | nil => intro s h; exact h
  | cons i rest ih =>
      intro s h
      exact ih _ (noFailed_step fit batch s i hfit h)

theorem allDoneB_iff (s : SysState) :
    allDoneB s = true ↔ ∀ w ∈ s.workers, w.phase = .done := by
  unfold allDoneB
  rw [List.all_eq_true]
  constructor
  · intro h w hw
    exact of_decide_eq_true (h w hw)
  · intro h w hw
    exact decide_eq_true (h w hw)

/-- What holds of any final (all-workers-done) state of a well-formed run:
every record is Completed or Failed, the result log contains every object of
the run exactly once, and each log entry names an object of the run and one of
the run's worker tokens. -/
theorem final_state (ids0 toks : List Nat) (hids : ids0.Nodup) (htoks : toks.Nodup)
    (s : SysState) (hwf : WellFormed ids0 toks s) (hne : s.workers ≠ [])
    (hdone : allDoneB s = true) :
    (∀ id ∈ ids0, (s.led.st id).isCompleted = true ∨ (s.led.st id).isFailed = true) ∧
    List.Perm (s.log.map Prod.fst) ids0 ∧
    (∀ e ∈ s.log, e.1 ∈ ids0 ∧ e.2 ∈ toks) := by
  have hdoneP : ∀ w ∈ s.workers, w.phase = .done := (allDoneB_iff s).mp hdone
  obtain ⟨w0, hw0⟩ := List.exists_mem_of_ne_nil s.workers hne
  have hnoU : ∀ id ∈ ids0, s.led.st id ≠ .unclaimed :=
    hwf.done_no_unclaimed ⟨w0, hw0, hdoneP w0 hw0⟩
  have hnoC : ∀ id ∈ ids0, ∀ o t, s.led.st id ≠ .claimed o t := by
    intro id hid o t hcl
    obtain ⟨j, w', hj, _, hph'⟩ := hwf.claimed_fitter id o t hid hcl
    have := hdoneP w' (List.get?_mem hj)
    rw [this] at hph'
    cases hph'
  have hfin : ∀ id ∈ ids0, (s.led.st id).isCompleted = true ∨
      (s.led.st id).isFailed = true := by
    intro id hid
    rcases hs : s.led.st id with _ | ⟨o, t⟩ | r | _
    · exact absurd hs (hnoU id hid)
    · exact absurd hs (hnoC id hid o t)
    · left; rfl
    · right; rfl
  refine ⟨hfin, ?_, hwf.log_entries⟩
  rw [List.perm_iff_count]
  intro a
  by_cases ha : a ∈ ids0
  · rw [hwf.finished_logged_once a ha (hfin a ha), List.count_eq_one_of_mem hids ha]
  · rw [List.count_eq_zero_of_not_mem ha, List.count_eq_zero.mpr]
    intro hmem
    obtain ⟨e, he, heq⟩ := List.mem_map.mp hmem
    exact ha (heq ▸ (hwf.log_entries e he).1)

theorem completedRows_fst (led : Ledger)
    (h : ∀ id ∈ led.ids, (led.st id).isCompleted = true) :
    (completedRows led).map Prod.fst = led.ids := by
  unfold completedRows
  have : ∀ l : List Nat, (∀ id ∈ l, (led.st id).isCompleted = true) →
      (l.filterMap fun i =>
        match led.st i with
        | .completed r => some (i, r)
        | _ => none).map Prod.fst = l := by
    intro l
    induction l with
    | nil => intro _; rfl
    | cons a as ih =>
        intro hl
        obtain ⟨r, hr⟩ := (isCompleted_true_iff _).mp (hl a (by simp))
        rw [List.filterMap_cons, hr]
        show ((a, r) :: _).map Prod.fst = a :: as
        rw [List.map_cons, ih fun b hb => hl b (by simp [hb])]
  exact this led.ids h

theorem merge_all_completed (summary : List (Nat × Nat)) (led : Ledger)
    (hsum : ∀ row ∈ summary, row.1 ∈ led.ids ∧ (led.st row.1).isCompleted = true)
    (hall : ∀ id ∈ led.ids, (led.st id).isCompleted = true) :
    merge summary led = completedRows led := by
  unfold merge
  rw [List.filter_eq_nil_iff.mpr, List.nil_append]
  intro row hrow
  obtain ⟨hr0, _⟩ := hsum row hrow
  have : row.1 ∈ (completedRows led).map Prod.fst := by
    rw [completedRows_fst led hall]
    exact hr0
  obtain ⟨c, hc, hceq⟩ := List.mem_map.mp this
  simp only [Bool.not_eq_true', Bool.not_eq_false]
  exact List.any_eq_true.mpr ⟨c, hc, by simp [hceq]⟩

/-! ## Race lemmas -/

theorem raceAll_not_unclaimed (id : Nat) (led : Ledger) (attempts : List (Nat × Nat))
    (h : getUnclaimed led id = false) :
    (raceAll id led attempts).1.count true = 0 ∧ (raceAll id led attempts).2 = led := by
  induction attempts with
  | nil => exact ⟨rfl, rfl⟩
  | cons p rest ih =>
      obtain ⟨tok, now⟩ := p
      have htc := tryClaim_of_not_unclaimed led id tok now h
      unfold raceAll
      rw [htc]
      simp only [List.count_cons]
      refine ⟨?_, ih.2⟩
      rw [ih.1]
      simp

theorem raceAll_unclaimed (id : Nat) (led : Ledger) (tok now : Nat)
    (rest : List (Nat × Nat)) (h : getUnclaimed led id = true) :
    (raceAll id led ((tok, now) :: rest)).1.count true = 1 := by
  have hmem : id ∈ led.ids := ((getUnclaimed_iff led id).mp h).1
  have htc := tryClaim_of_unclaimed led id tok now h
  have hafter : getUnclaimed (setStatus led id (.claimed tok now)) id = false := by
    unfold getUnclaimed
    rw [get_setStatus_self _ _ _ hmem]
  unfold raceAll
  rw [htc]
  simp only [List.count_cons]
  rw [(raceAll_not_unclaimed id _ rest hafter).1]
  simp

/-! ## C1: mutual exclusion of claims -/

/-- C1: at most one worker holds an active claim on any object.  First, for N
independent processes racing `tryClaim` on the same candidate (any interleaving
of the atomic attempts being some sequential order of them), exactly one
attempt succeeds; second, in a two-process race the loser's `tryClaim` returns
false without mutating anything and its retry on the next unclaimed candidate
succeeds without error; third, in every state reachable by any schedule of the
concurrent system, no two distinct workers are fitting (hold the claim on) the
same object. -/
theorem mutual_exclusion_spec :
    (∀ (led : Ledger) (id : Nat) (attempts : List (Nat × Nat)),
      getUnclaimed led id = true → attempts ≠ [] →
      (raceAll id led attempts).1.count true = 1) ∧
    (∀ (led : Ledger) (id id2 t1 n1 t2 n2 : Nat),
      getUnclaimed led id = true → getUnclaimed led id2 = true → id2 ≠ id →
      (tryClaim led id t1 n1).1 = true ∧
      tryClaim (tryClaim led id t1 n1).2 id t2 n2 = (false, (tryClaim led id t1 n1).2) ∧
      (tryClaim (tryClaim led id t1 n1).2 id2 t2 n2).1 = true) ∧
    (∀ (ids0 toks : List Nat) (fit : Nat → FitOutcome) (batch : Nat)
        (sch : List Nat), toks.Nodup →
      ∀ j k wj wk id,
        (sysRun fit batch (initState ids0 toks) sch).workers.get? j = some wj →
        (sysRun fit batch (initState ids0 toks) sch).workers.get? k = some wk →
        wj.phase = .fitting id → wk.phase = .fitting id → j = k) := by
  refine ⟨?_, ?_, ?_⟩
  · intro led id attempts h hne
    rcases attempts with _ | ⟨⟨tok, now⟩, rest⟩
    · exact absurd rfl hne
    · exact raceAll_unclaimed id led tok now rest h
  · intro led id id2 t1 n1 t2 n2 h h2 hne
    have hmem : id ∈ led.ids := ((getUnclaimed_iff led id).mp h).1
    have htc := tryClaim_of_unclaimed led id t1 n1 h
    have hafter : getUnclaimed (tryClaim led id t1 n1).2 id = false := by
      rw [htc]
      unfold getUnclaimed
      rw [get_setStatus_self _ _ _ hmem]
    have hafter2 : getUnclaimed (tryClaim led id t1 n1).2 id2 = true := by
      rw [htc]
      unfold getUnclaimed
      rw [get_setStatus_ne _ _ _ _ hne]
      exact h2
    refine ⟨by rw [htc], ?_, ?_⟩
    · exact tryClaim_of_not_unclaimed _ id t2 n2 hafter
    · rw [tryClaim_of_unclaimed _ id2 t2 n2 hafter2]
  · intro ids0 toks fit batch sch htoks j k wj wk id hj hk hpj hpk
    have hwf : WellFormed ids0 toks (sysRun fit batch (initState ids0 toks) sch) :=
      wf_run ids0 toks htoks fit batch sch _ (wf_init ids0 toks)
    obtain ⟨_, tj, hstj⟩ := hwf.fits_claimed j wj id hj hpj
    obtain ⟨_, tk, hstk⟩ := hwf.fits_claimed k wk id hk hpk
    rw [hstj] at hstk
    exact tok_inj htoks hwf j k wj wk hj hk (Status.claimed.inj hstk).1

/-- Witness for C1: a two-worker race on one object, and a reachable state of a
two-worker run. -/
theorem mutual_exclusion_spec_witness :
    (raceAll 1 (initState [1, 2] []).led [(5, 0), (6, 1)]).1.count true = 1 ∧
    (tryClaim (initState [1, 2] []).led 1 5 0).1 = true ∧
    tryClaim (tryClaim (initState [1, 2] []).led 1 5 0).2 1 6 1
      = (false, (tryClaim (initState [1, 2] []).led 1 5 0).2) ∧
    (tryClaim (tryClaim (initState [1, 2] []).led 1 5 0).2 2 6 1).1 = true ∧
    (0 : Nat) = 0 := by
  obtain ⟨hwin, hlose, hretry⟩ :=
    mutual_exclusion_spec.2.1 (initState [1, 2] []).led 1 2 5 0 6 1
      (by decide) (by decide) (by decide)
  refine ⟨mutual_exclusion_spec.1 _ 1 [(5, 0), (6, 1)] (by decide) (by decide),
    hwin, hlose, hretry, ?_⟩
  exact mutual_exclusion_spec.2.2 [1, 2] [101, 202] (fun _ => .success 0) 10 [0]
    (by decide) 0 0 ⟨101, .fitting 1, 0⟩ ⟨101, .fitting 1, 0⟩ 1
    (by decide) (by decide) rfl rfl

theorem isFailed_true_iff (s : Status) : s.isFailed = true ↔ s = .failed := by
  cases s <;> simp [Status.isFailed]

/-! ## C5: every interleaving of two workers over five objects -/

/-- C5: for a run over the five object IDs 1..5 with a deterministic
always-successful fit stub, every interleaved execution (schedule) of two
concurrent worker loops that runs to completion ends with exactly 5 Completed
records and nothing claimed or unclaimed, the result log containing each
object exactly once, each written by one of the two workers, and the merged
summary artifact containing exactly 5 rows — one per object, no losses and no
duplicates. -/
theorem catalogue_run_spec (sch : List Nat) (s : SysState)
    (hs : s = sysRun (fun id => .success (10 * id)) 10
      (initState [1, 2, 3, 4, 5] [101, 202]) sch)
    (hdone : allDoneB s = true) :
    reportStatus s.led = ⟨5, 5, 0, 0, 0⟩ ∧
    List.Perm (s.log.map Prod.fst) [1, 2, 3, 4, 5] ∧
    (∀ e ∈ s.log, e.1 ∈ [1, 2, 3, 4, 5] ∧ (e.2 = 101 ∨ e.2 = 202)) ∧
    (∀ id ∈ [1, 2, 3, 4, 5], ∃ r, s.led.st id = .completed r) ∧
    (merge s.summary s.led).map Prod.fst = [1, 2, 3, 4, 5] ∧
    (merge s.summary s.led).length = 5 := by
  have htoks : ([101, 202] : List Nat).Nodup := by decide
  have hids : ([1, 2, 3, 4, 5] : List Nat).Nodup := by decide
  subst hs
  have hwf := wf_run [1, 2, 3, 4, 5] [101, 202] htoks
    (fun id => .success (10 * id)) 10 sch _ (wf_init _ _)
  have hnf := noFailed_run (fun id => .success (10 * id)) 10
    (fun id h => by cases h) sch (initState [1, 2, 3, 4, 5] [101, 202])
    (fun id h => by cases h)
  have hne : (sysRun (fun id => .success (10 * id)) 10
      (initState [1, 2, 3, 4, 5] [101, 202]) sch).workers ≠ [] := by
    intro he
    have hte := hwf.toks_eq
    rw [he] at hte
    cases hte
  obtain ⟨hfin, hperm, hlog⟩ := final_state _ _ hids htoks _ hwf hne hdone
  have hcomp : ∀ id ∈ [1, 2, 3, 4, 5],
      ((sysRun (fun id => .success (10 * id)) 10
        (initState [1, 2, 3, 4, 5] [101, 202]) sch).led.st id).isCompleted = true := by
    intro id hid
    rcases hfin id hid with hc | hf
    · exact hc
    · exact absurd ((isFailed_true_iff _).mp hf) (hnf id)
  have hids_eq := hwf.ids_eq
  have hall2 : ∀ id ∈ (sysRun (fun id => .success (10 * id)) 10
      (initState [1, 2, 3, 4, 5] [101, 202]) sch).led.ids,
      ((sysRun (fun id => .success (10 * id)) 10
        (initState [1, 2, 3, 4, 5] [101, 202]) sch).led.st id).isCompleted = true := by
    rw [hids_eq]
    exact hcomp
  refine ⟨?_, hperm, ?_, ?_, ?_, ?_⟩
  · unfold reportStatus
    rw [hids_eq]
    simp only [StatusReport.mk.injEq]
    refine ⟨by decide, ?_, ?_, ?_, ?_⟩
    · rw [List.countP_eq_length.mpr fun a ha => hcomp a ha]
      decide
    · apply List.countP_eq_zero.mpr
      intro a ha hp
      obtain ⟨r, hr⟩ := (isCompleted_true_iff _).mp (hcomp a ha)
      rw [hr] at hp
      simp [Status.isFailed] at hp
    · apply List.countP_eq_zero.mpr
      intro a ha hp
      obtain ⟨r, hr⟩ := (isCompleted_true_iff _).mp (hcomp a ha)
      rw [hr] at hp
      simp [Status.isClaimed] at hp
    · apply List.countP_eq_zero.mpr
      intro a ha hp
      obtain ⟨r, hr⟩ := (isCompleted_true_iff _).mp (hcomp a ha)
      rw [hr] at hp
      simp [Status.isUnclaimed] at hp
  · intro e he
    obtain ⟨h1, h2⟩ := hlog e he
    refine ⟨h1, ?_⟩
    simpa using h2
  · intro id hid
    exact (isCompleted_true_iff _).mp (hcomp id hid)
  · rw [merge_all_completed _ _ ?_ hall2, completedRows_fst _ hall2, hids_eq]
    intro row hr
    obtain ⟨h1, h2⟩ := hwf.summary_rows row hr
    exact ⟨by rw [hids_eq]; exact h1, h2⟩
  · have hfst : (merge (sysRun (fun id => .success (10 * id)) 10
        (initState [1, 2, 3, 4, 5] [101, 202]) sch).summary
        (sysRun (fun id => .success (10 * id)) 10
          (initState [1, 2, 3, 4, 5] [101, 202]) sch).led).map Prod.fst
        = [1, 2, 3, 4, 5] := by
      rw [merge_all_completed _ _ ?_ hall2, completedRows_fst _ hall2, hids_eq]
      intro row hr
      obtain ⟨h1, h2⟩ := hwf.summary_rows row hr
      exact ⟨by rw [hids_eq]; exact h1, h2⟩
    have hlen := congrArg List.length hfst
    rw [List.length_map] at hlen
    simpa using hlen

/-- Witness for C5: a concrete completed schedule of the two workers. -/
theorem catalogue_run_spec_witness :
    allDoneB (sysRun (fun id => .success (10 * id)) 10
      (initState [1, 2, 3, 4, 5] [101, 202])
      [0, 0, 0, 0, 0, 0, 0, 0, 0, 0, 0, 1]) = true ∧
    reportStatus (sysRun (fun id => .success (10 * id)) 10
      (initState [1, 2, 3, 4, 5] [101, 202])
      [0, 0, 0, 0, 0, 0, 0, 0, 0, 0, 0, 1]).led = ⟨5, 5, 0, 0, 0⟩ := by
  refine ⟨by decide, ?_⟩
  exact (catalogue_run_spec [0, 0, 0, 0, 0, 0, 0, 0, 0, 0, 0, 1] _ rfl (by decide)).1

/-! ## C6: a fit failure is recorded as Failed and the loop continues -/

/-- C6: when `fit` returns Failure for the object a worker is fitting, the
step records that object as Failed, leaves every other record untouched, and
returns the worker to the idle phase of its loop (no worker-level error state
exists and the loop is not aborted); concretely, a single worker over objects
1..5 whose fit fails exactly on object 3 still drains the whole catalogue,
ending done with 4 Completed, 1 Failed and the failure visible only in the
aggregate counts. -/
theorem fit_failure_spec :
    (∀ (fit : Nat → FitOutcome) (batch : Nat) (s : SysState) (i : Nat)
        (w : Worker) (id : Nat),
      s.workers.get? i = some w → w.phase = .fitting id → fit id = .failure →
      id ∈ s.led.ids → (∃ t, s.led.st id = .claimed w.tok t) →
      (sysStep fit batch s i).led.st id = .failed ∧
      (sysStep fit batch s i).workers.get? i
        = some { w with phase := .idle, count := w.count + 1 } ∧
      ∀ j, j ≠ id → (sysStep fit batch s i).led.st j = s.led.st j) ∧
    allDoneB (sysRun (fun id => if id = 3 then FitOutcome.failure else .success id) 10
      (initState [1, 2, 3, 4, 5] [7]) [0, 0, 0, 0, 0, 0, 0, 0, 0, 0, 0]) = true ∧
    reportStatus (sysRun (fun id => if id = 3 then FitOutcome.failure else .success id) 10
      (initState [1, 2, 3, 4, 5] [7]) [0, 0, 0, 0, 0, 0, 0, 0, 0, 0, 0]).led
      = ⟨5, 4, 1, 0, 0⟩ ∧
    (sysRun (fun id => if id = 3 then FitOutcome.failure else .success id) 10
      (initState [1, 2, 3, 4, 5] [7])
      [0, 0, 0, 0, 0, 0, 0, 0, 0, 0, 0]).log.map Prod.fst = [1, 2, 3, 4, 5] := by
  refine ⟨?_, by decide, by decide, by decide⟩
  intro fit batch s i w id hg hph hf hmem hex
  obtain ⟨t, hst⟩ := hex
  rw [sysStep_fitting fit batch s i w id hg hph]
  have hrec := recordResult_of_claimed s.led id w.tok t (fit id) hmem hst
  refine ⟨?_, ?_, ?_⟩
  · show (recordResult s.led id w.tok (fit id)).st id = .failed
    rw [hrec, st_setStatus_self, hf]
    rfl
  · show (s.workers.set i _).get? i = _
    exact get?_set_self _ _ _ _ hg
  · intro j hj
    show (recordResult s.led id w.tok (fit id)).st j = s.led.st j
    rw [hrec]
    exact st_setStatus_ne _ _ _ _ hj

/-- Witness for C6: a worker mid-run fitting the failing object 3. -/
theorem fit_failure_spec_witness :
    (sysStep (fun id => if id = 3 then FitOutcome.failure else .success id) 10
      (sysRun (fun id => if id = 3 then FitOutcome.failure else .success id) 10
        (initState [1, 2, 3, 4, 5] [7]) [0, 0, 0, 0, 0]) 0).led.st 3 = .failed := by
  exact (fit_failure_spec.1 (fun id => if id = 3 then FitOutcome.failure else .success id)
    10 (sysRun (fun id => if id = 3 then FitOutcome.failure else .success id) 10
      (initState [1, 2, 3, 4, 5] [7]) [0, 0, 0, 0, 0]) 0
    ⟨7, .fitting 3, 2⟩ 3 (by decide) rfl (by decide) (by decide) ⟨4, by decide⟩).1

/-! ## C7: the coordinator scans unclaimed candidates in ascending ID order -/

/-- C7: the coordinator's scan claims exactly the first `n` still-unclaimed
candidates in scan order, skipping to the next candidate on a lost race; the
candidate list is the Unclaimed records sorted by ID ascending; `claimNext`
returns catalogue-exhausted exactly when no Unclaimed record remains (it is a
plain function call, never blocking or polling); and a single worker on a
fresh run fits the objects in ascending ID order. -/
theorem coordinator_spec :
    (∀ (tok now : Nat) (cands : List Nat) (led : Ledger) (n : Nat), cands.Nodup →
      (claimScan tok now led cands n).1 = (cands.filter (getUnclaimed led)).take n) ∧
    (∀ led : Ledger, List.Sorted (· ≤ ·) (candidates led)) ∧
    (∀ (led : Ledger) (c : Nat), c ∈ candidates led ↔ getUnclaimed led c = true) ∧
    (∀ (led : Ledger) (tok now n : Nat), (claimNext led tok now n).1 = .exhausted ↔
      ∀ id ∈ led.ids, (led.st id).isUnclaimed = false) ∧
    (sysRun (fun id => .success id) 10 (initState [3, 1, 5, 2, 4] [7])
      [0, 0, 0, 0, 0, 0, 0, 0, 0, 0, 0]).log.map Prod.fst = [1, 2, 3, 4, 5] := by
  refine ⟨?_, candidates_sorted, mem_candidates, claimNext_exhausted_iff, by decide⟩
  intro tok now cands led n h
  exact claimScan_claims tok now cands led n h

/-- Witness for C7: a concrete scan over a partly-claimed ledger. -/
theorem coordinator_spec_witness :
    (claimScan 5 0 wled [1, 2, 3] 2).1 = [1] ∧
    ((claimNext wled 5 0 1).1 = .exhausted ↔
      ∀ id ∈ wled.ids, (wled.st id).isUnclaimed = false) := by
  constructor
  · rw [coordinator_spec.1 5 0 [1, 2, 3] wled 2 (by decide)]
    decide
  · exact coordinator_spec.2.2.2.1 wled 5 0 1

/-! ## C8: the batch merger triggers exactly at batch-size boundaries -/

/-- C8: a completion step invokes the batch merger — the same `merge` used on
demand — exactly when the worker's completion count crosses a batch-size
boundary, and a claim step never merges; concretely, a single worker fitting
12 objects with batch size 10 merges exactly once, at completion count 10,
not after every completion. -/
theorem batch_merge_spec :
    (∀ (fit : Nat → FitOutcome) (batch : Nat) (s : SysState) (i : Nat)
        (w : Worker) (id : Nat),
      s.workers.get? i = some w → w.phase = .fitting id →
      (sysStep fit batch s i).mergeLog
        = (if (w.count + 1) % batch == 0 then s.mergeLog ++ [(i, w.count + 1)]
           else s.mergeLog) ∧
      (sysStep fit batch s i).summary
        = (if (w.count + 1) % batch == 0
           then merge s.summary (recordResult s.led id w.tok (fit id))
           else s.summary)) ∧
    (∀ (fit : Nat → FitOutcome) (batch : Nat) (s : SysState) (i : Nat) (w : Worker),
      s.workers.get? i = some w → w.phase = .idle →
      (sysStep fit batch s i).mergeLog = s.mergeLog ∧
      (sysStep fit batch s i).summary = s.summary) ∧
    (sysRun (fun id => .success id) 10 (initState (List.range' 1 12) [7])
      (List.replicate 25 0)).mergeLog = [(0, 10)] ∧
    (sysRun (fun id => .success id) 10 (initState (List.range' 1 12) [7])
      (List.replicate 25 0)).log.length = 12 := by
  refine ⟨?_, ?_, by decide, by decide⟩
  · intro fit batch s i w id hg hph
    rw [sysStep_fitting fit batch s i w id hg hph]
    exact ⟨rfl, rfl⟩
  · intro fit batch s i w hg hph
    rw [sysStep_idle fit batch s i w hg hph]
    rcases claimNext_one s.led w.tok s.clock with ⟨_, hcn⟩ | ⟨c, rest, _, _, _, hcn⟩ <;>
      unfold applyClaim <;> rw [hcn] <;> exact ⟨rfl, rfl⟩

/-- Witness for C8: a boundary-crossing completion with batch size 1. -/
theorem batch_merge_spec_witness :
    (sysStep (fun id => .success id) 1
      (sysRun (fun id => .success id) 1 (initState [1, 2] [7]) [0]) 0).mergeLog
      = [(0, 1)] := by
  rw [(batch_merge_spec.1 (fun id => .success id) 1
    (sysRun (fun id => .success id) 1 (initState [1, 2] [7]) [0]) 0
    ⟨7, .fitting 1, 0⟩ 1 (by decide) rfl).1]
  decide

/-! ## C9 and C10: the `load_goodss` photometry processing -/

theorem mapWithIndex_get? (f : Nat → α → β) :
    ∀ (l : List α) (k j : Nat),
      (mapWithIndex f k l).get? j = (l.get? j).map fun a => f (k + j) a := by
  intro l
  induction l with
  | nil =>
      intro k j
      simp [mapWithIndex]
  | cons a as ih =>
      intro k j
      cases j with
      | zero => simp [mapWithIndex]
      | succ m =>
          show (mapWithIndex f (k + 1) as).get? m
            = (as.get? m).map fun a => f (k + (m + 1)) a
          have harith : k + 1 + m = k + (m + 1) := by omega
          rw [ih (k + 1) m, harith]

/-- C9: each band of the photometry returned by `load_goodss` is the
missing-flux fixup followed by the SNR cap: a band whose catalogue flux is 0
or whose catalogue error is non-positive becomes `(0, 9.9e99)`; every other
band keeps its flux, has its error raised to `flux / max_snr` exactly when the
catalogue SNR exceeds the cap, and ends with signal-to-noise `flux/error` at
most the cap — 20 for the first ten bands and 10 for the remaining (IRAC)
bands. -/
theorem load_goodss_snr (rows : List (ℚ × ℚ)) (i : Nat) (p0 : ℚ × ℚ)
    (h : rows.get? i = some p0) :
    (processPhotometry rows).get? i = some (capSNR i (fixMissing p0)) ∧
    ((p0.1 = 0 ∨ p0.2 ≤ 0) → capSNR i (fixMissing p0) = (0, bigErr)) ∧
    (¬(p0.1 = 0 ∨ p0.2 ≤ 0) →
      (capSNR i (fixMissing p0)).1 = p0.1 ∧
      (capSNR i (fixMissing p0)).2
        = (if p0.1 / p0.2 > maxSNR i then p0.1 / maxSNR i else p0.2) ∧
      (capSNR i (fixMissing p0)).1 / (capSNR i (fixMissing p0)).2 ≤ maxSNR i) ∧
    (i < 10 → maxSNR i = 20) ∧ (10 ≤ i → maxSNR i = 10) := by
  have hmax : 0 < maxSNR i := by
    unfold maxSNR
    split <;> norm_num
  refine ⟨?_, ?_, ?_, fun h10 => by simp [maxSNR, h10],
    fun h10 => by simp [maxSNR, Nat.not_lt.mpr h10]⟩
  · unfold processPhotometry
    rw [mapWithIndex_get? capSNR (rows.map fixMissing) 0 i, List.get?_map, h]
    simp
  · intro hrep
    unfold fixMissing
    rw [if_pos hrep]
    unfold capSNR
    rw [if_neg]
    show ¬((0 : ℚ) / bigErr > maxSNR i)
    rw [zero_div]
    exact not_lt.mpr hmax.le
  · intro hrem
    push_neg at hrem
    obtain ⟨h1, h2⟩ := hrem
    have hfix : fixMissing p0 = p0 := by
      unfold fixMissing
      rw [if_neg]
      push_neg
      exact ⟨h1, h2⟩
    rw [hfix]
    unfold capSNR
    by_cases hc : p0.1 / p0.2 > maxSNR i
    · rw [if_pos hc, if_pos hc]
      refine ⟨rfl, rfl, ?_⟩
      have hp1 : 0 < p0.1 := by
        by_contra hle
        push_neg at hle
        have hde : p0.1 / p0.2 ≤ 0 := div_nonpos_of_nonpos_of_nonneg hle h2.le
        linarith
      show p0.1 / (p0.1 / maxSNR i) ≤ maxSNR i
      have heq : p0.1 / (p0.1 / maxSNR i) = maxSNR i := by
        field_simp
      rw [heq]
    · rw [if_neg hc, if_neg hc]
      exact ⟨rfl, rfl, not_lt.mp hc⟩

/-- Witness for C9: a band with catalogue SNR 100 gets its error raised to
flux/20. -/
theorem load_goodss_snr_witness :
    (processPhotometry [((100 : ℚ), 1)]).get? 0
      = some (capSNR 0 (fixMissing (100, 1))) ∧
    capSNR 0 (fixMissing ((100 : ℚ), 1)) = (100, 5) := by
  refine ⟨(load_goodss_snr [((100 : ℚ), 1)] 0 (100, 1) rfl).1, ?_⟩
  norm_num [capSNR, fixMissing, maxSNR]

/-- C10: `load_goodss` maps object ID to catalogue row `int(ID) - 1` under
NumPy indexing, so ID 0 yields row index -1 and silently selects the last
catalogue row instead of raising an out-of-range error, while IDs from 1 up
select row ID - 1 counting from the front. -/
theorem load_goodss_row_spec (α : Type) :
    (∀ cat : List α, goodssRow cat 0 = cat.getLast?) ∧
    (∀ (cat : List α) (ID : Int), 1 ≤ ID →
      goodssRow cat ID = cat.get? (ID - 1).toNat) := by
  constructor
  · intro cat
    unfold goodssRow npRow
    rw [if_neg (by norm_num : ¬(0 : Int) ≤ 0 - 1)]
    cases cat with
    | nil =>
        rw [if_neg (by norm_num)]
        rfl
    | cons a as =>
        have hlen : (0 : Int) ≤ 0 - 1 + (a :: as).length := by
          rw [List.length_cons]
          push_cast
          omega
        rw [if_pos hlen]
        have htn : ((0 : Int) - 1 + (a :: as).length).toNat = as.length := by
          rw [List.length_cons]
          push_cast
          omega
        have hlc : (a :: as).length - 1 = as.length := by
          rw [List.length_cons]
          omega
        rw [htn, List.getLast?_eq_get?, hlc]
  · intro cat ID hID
    unfold goodssRow npRow
    rw [if_pos (by omega : (0 : Int) ≤ ID - 1)]

/-- Witness for C10: a three-row catalogue — ID 0 returns the third (last)
row, ID 2 returns the second row. -/
theorem load_goodss_row_spec_witness :
    goodssRow [10, 20, 30] 0 = some 30 ∧ goodssRow [10, 20, 30] 2 = some 20 := by
  constructor
  · rw [(load_goodss_row_spec Nat).1 [10, 20, 30]]
    rfl
  · rw [(load_goodss_row_spec Nat).2 [10, 20, 30] 2 (by norm_num)]
    rfl

end Bagpipes
